import Mathlib

/-!
Verification development for a small AMM/DEX simulator.

The development shallowly embeds three Python modules over exact rational
arithmetic (`ℚ` in place of Python floats):

* `fork_detector.py` — deterministic fork classification by address prefix;
* `amm.py` — a fee-less two-token constant-product AMM;
* `backtester.py` — a fee-bearing AMM (`Backtester.AMM`) plus the
  `DEXBacktester` orchestrator with user balances and LP-position tracking.

Python dictionaries are modelled as insertion-ordered association lists
(`alook` is `dict.__getitem__`/`dict.get`, `aset` is `dict.__setitem__`).
Python exceptions (`ValueError`, `KeyError`, `ZeroDivisionError`) are
modelled as `Except DexErr`; every `raise` in the translated code occurs
before any state mutation on the paths exercised by the theorems below, so
a failing operation leaves the state unchanged.
-/

section AssocList

variable {α : Type}

/-- Lookup in an association list: Python `d[k]` / `d.get(k)`.
Returns the first binding of `k`, as a Python dict has unique keys. -/
def alook (k : String) : List (String × α) → Option α
  | [] => none
  | (k', v) :: rest => if k' = k then some v else alook k rest

/-- Update of an association list: Python `d[k] = v`.  Replaces the first
binding of `k`, or appends a new binding (dicts are insertion-ordered). -/
def aset (k : String) (v : α) : List (String × α) → List (String × α)
  | [] => [(k, v)]
  | (k', v') :: rest => if k' = k then (k, v) :: rest else (k', v') :: aset k v rest

/-- The keys of an association list, in order: Python `list(d.keys())`. -/
def akeys (m : List (String × α)) : List String := m.map Prod.fst

end AssocList

/-- Python `str.lower()` (per-character, which matches CPython on the ASCII
addresses used by the fork detector). -/
def pyLower (s : String) : String := ⟨s.data.map Char.toLower⟩

/-- Python `s.startswith(p)`. -/
def pyStartsWith (s p : String) : Bool := p.data.isPrefixOf s.data

/-- Error taxonomy for the Python exceptions raised by the embedded code. -/
inductive DexErr where
  | insufficientBalance
  | poolNotFound
  | securityBlocked
  | keyError
  | divByZero
deriving DecidableEq

namespace ForkDetector

/-- `fork_detector.PoolMetadata` dataclass. -/
structure PoolMetadata where
  name : String
  is_fork : Bool
  original_protocol : Option String
  risk_score : ℚ
deriving DecidableEq

/-- Body of `ForkDetector.query_pool` after the normalization
`address = pool_address.lower()`: the prefix checks against the hard-coded
`known_forks` and `known_genuine` tables, in their dict insertion order,
then the medium-risk default. -/
def classifyLowered (address : String) : PoolMetadata :=
  if pyStartsWith address "0x795065" then ⟨"SushiSwap", true, some "Uniswap V2", 9/10⟩
  else if pyStartsWith address "0x0ed7e5" then ⟨"PancakeSwap", true, some "Uniswap V2", 8/10⟩
  else if pyStartsWith address "0xc35dad" then ⟨"QuickSwap", true, some "Uniswap V2", 7/10⟩
  else if pyStartsWith address "0xb4e16d" then ⟨"Uniswap V2", false, none, 0⟩
  else if pyStartsWith address "0x0d4a11" then ⟨"Uniswap V2", false, none, 0⟩
  else ⟨"unknown", false, none, 3/10⟩

/-- `ForkDetector.query_pool`: lowercases the address, then classifies. -/
def query_pool (pool_address : String) : PoolMetadata :=
  classifyLowered (pyLower pool_address)

/-- `ForkDetector.is_vampire_fork`. -/
def is_vampire_fork (pool_address : String) : Bool :=
  (query_pool pool_address).is_fork

end ForkDetector

namespace Amm

/-- `amm.AMM`: the fee-less AMM of `amm.py`, holding a reserves dict. -/
structure AMM where
  reserves : List (String × ℚ)
deriving DecidableEq

/-- `amm.AMM._other_token`: the first reserve key different from
`token_in`; `none` models the `IndexError` when there is no such key. -/
def other_token (s : AMM) (token_in : String) : Option String :=
  (s.reserves.find? (fun p => p.1 != token_in)).map Prod.fst

/-- `amm.AMM.execute_swap`: computes `k` from the two reserves, adds the
full `amount_in` to the input reserve, and sets the output reserve to
`k / (reserve_in + amount_in)`.  No fee is charged.  `none` models the
`KeyError` on a missing `token_in` and the `ZeroDivisionError` when the
updated input reserve is zero. -/
def AMM.execute_swap (s : AMM) (amount_in : ℚ) (token_in : String) : Option (ℚ × AMM) :=
  match other_token s token_in with
  | none => none
  | some token_out =>
    match alook token_in s.reserves, alook token_out s.reserves with
    | some reserve_in, some reserve_out =>
      let k := reserve_in * reserve_out
      let reserve_in' := reserve_in + amount_in
      if reserve_in' = 0 then none
      else
        let amount_out := reserve_out - k / reserve_in'
        some (amount_out, ⟨aset token_out (k / reserve_in') (aset token_in reserve_in' s.reserves)⟩)
    | _, _ => none

end Amm

namespace Backtester

/-- `backtester.LPToken` dataclass; the reserves pair is split into the two
positional components `reserve0`/`reserve1`. -/
structure LPToken where
  pair : String
  address : String
  reserve0 : ℚ
  reserve1 : ℚ
  total_supply : ℚ
  fee_accumulated : ℚ
deriving DecidableEq

/-- `backtester.AMM`: LP fee, gas fee and the pool dict keyed by
`"{token_in}-{token_out}"`. -/
structure AMM where
  fee : ℚ
  gas_fee : ℚ
  pools : List (String × LPToken)
deriving DecidableEq

/-- The f-string pool key `f"{t0}-{t1}"`; note the order of the two tokens
is preserved, there is no canonicalization. -/
def pairName (t0 t1 : String) : String := t0 ++ "-" ++ t1

/-- `backtester.AMM.execute_swap`: quote with the LP fee, update both
reserves atomically, accumulate the fee, and return the output reduced by
the gas fee together with the updated pool.  The input reserve is the
positional `reserve0` of the stored pool. -/
def AMM.execute_swap (amm : AMM) (token_in token_out : String) (amount_in : ℚ) :
    Except DexErr (ℚ × LPToken × AMM) :=
  match alook (pairName token_in token_out) amm.pools with
  | none => .error .poolNotFound
  | some lp =>
    let amount_in_with_fee := amount_in * (1 - amm.fee)
    if lp.reserve0 + amount_in_with_fee = 0 then .error .divByZero
    else
      let amount_out := amount_in_with_fee * lp.reserve1 / (lp.reserve0 + amount_in_with_fee)
      let lp' : LPToken := { lp with
        reserve0 := lp.reserve0 + amount_in,
        reserve1 := lp.reserve1 - amount_out,
        fee_accumulated := lp.fee_accumulated + amount_in * amm.fee }
      .ok (amount_out * (1 - amm.gas_fee), lp',
        { amm with pools := aset (pairName token_in token_out) lp' amm.pools })

/-- `backtester.AMM.add_liquidity`: on the first deposit for the (ordered)
pair, creates the pool with supply `sqrt(amount0 * amount1)` — `sq` stands
for `math.sqrt` — and address `"0x" + pair_name[:8]`; on later deposits,
mints `min(amount0/reserve0, amount1/reserve1) * total_supply` with no
ratio check.  `.divByZero` models the `ZeroDivisionError` on a zero
reserve. -/
def AMM.add_liquidity (amm : AMM) (t0 t1 : String) (amount0 amount1 : ℚ) (sq : ℚ → ℚ) :
    Except DexErr (LPToken × AMM) :=
  let pn := pairName t0 t1
  match alook pn amm.pools with
  | none =>
    let lp : LPToken := ⟨pn, "0x" ++ pn.take 8, amount0, amount1, sq (amount0 * amount1), 0⟩
    .ok (lp, { amm with pools := aset pn lp amm.pools })
  | some p =>
    if p.reserve0 = 0 ∨ p.reserve1 = 0 then .error .divByZero
    else
      let lp_amount := min (amount0 / p.reserve0) (amount1 / p.reserve1) * p.total_supply
      let p' : LPToken := { p with
        reserve0 := p.reserve0 + amount0,
        reserve1 := p.reserve1 + amount1,
        total_supply := p.total_supply + lp_amount }
      .ok (p', { amm with pools := aset pn p' amm.pools })

/-- `backtester.DEXBacktester` state: the AMM plus the per-user token
balances and per-user LP positions. -/
structure DEXBacktester where
  amm : AMM
  user_balances : List (String × List (String × ℚ))
  user_lp_positions : List (String × List (String × ℚ))
deriving DecidableEq

/-- Python `self.user_balances.get(user, {}).get(token, 0)`. -/
def getBal (st : DEXBacktester) (user token : String) : ℚ :=
  (alook token ((alook user st.user_balances).getD [])).getD 0

/-- Python `self.user_lp_positions.get(user, {}).get(pool, 0)`. -/
def getPos (st : DEXBacktester) (user pool : String) : ℚ :=
  (alook pool ((alook user st.user_lp_positions).getD [])).getD 0

/-- `backtester.DEXBacktester.safe_swap`: balance check, fork check on the
stored pool's address (a `KeyError` if the pool is absent), then the swap
and the two balance updates via `dict.get` with default 0. -/
def safe_swap (st : DEXBacktester) (user token_in token_out : String) (amount_in : ℚ) :
    Except DexErr (ℚ × DEXBacktester) :=
  if getBal st user token_in < amount_in then .error .insufficientBalance
  else
    match alook (pairName token_in token_out) st.amm.pools with
    | none => .error .keyError
    | some lp =>
      if ForkDetector.is_vampire_fork lp.address then .error .securityBlocked
      else
        match st.amm.execute_swap token_in token_out amount_in with
        | .error e => .error e
        | .ok (amount_out, _, amm') =>
          let inner := (alook user st.user_balances).getD []
          let inner1 := aset token_in ((alook token_in inner).getD 0 - amount_in) inner
          let inner2 := aset token_out ((alook token_out inner1).getD 0 + amount_out) inner1
          .ok (amount_out,
            { st with amm := amm', user_balances := aset user inner2 st.user_balances })

/-- `backtester.DEXBacktester.provide_liquidity`: balance checks, the AMM
deposit, the two balance debits (`d[k] -= a`, hence `.keyError` when the
key is missing), and the LP-position credit recomputed from the already
updated pool (`sqrt` branch when its supply is 0, otherwise the
`min`-share formula on the updated reserves). -/
def provide_liquidity (st : DEXBacktester) (user t0 t1 : String) (amount0 amount1 : ℚ)
    (sq : ℚ → ℚ) : Except DexErr DEXBacktester :=
  if getBal st user t0 < amount0 ∨ getBal st user t1 < amount1 then
    .error .insufficientBalance
  else
    match st.amm.add_liquidity t0 t1 amount0 amount1 sq with
    | .error e => .error e
    | .ok (lp, amm') =>
      let inner := (alook user st.user_balances).getD []
      match alook t0 inner with
      | none => .error .keyError
      | some v0 =>
        let inner1 := aset t0 (v0 - amount0) inner
        match alook t1 inner1 with
        | none => .error .keyError
        | some v1 =>
          let inner2 := aset t1 (v1 - amount1) inner1
          let bal' := aset user inner2 st.user_balances
          let lpPos := (alook user st.user_lp_positions).getD []
          if lp.total_supply = 0 then
            let lp_amount := sq (amount0 * amount1)
            .ok { amm := amm', user_balances := bal',
                  user_lp_positions :=
                    aset user (aset lp.pair ((alook lp.pair lpPos).getD 0 + lp_amount) lpPos)
                      st.user_lp_positions }
          else if lp.reserve0 = 0 ∨ lp.reserve1 = 0 then .error .divByZero
          else
            let lp_amount := min (amount0 / lp.reserve0) (amount1 / lp.reserve1) * lp.total_supply
            .ok { amm := amm', user_balances := bal',
                  user_lp_positions :=
                    aset user (aset lp.pair ((alook lp.pair lpPos).getD 0 + lp_amount) lpPos)
                      st.user_lp_positions }

/-- One public state-changing call on the `DEXBacktester`. -/
inductive Op where
  | provide (user token0 token1 : String) (amount0 amount1 : ℚ)
  | swap (user token_in token_out : String) (amount_in : ℚ)

/-- Run one public call; a raised exception propagates to the caller and the
state is kept (on the paths reachable under the theorems' hypotheses every
`raise` happens before any mutation). -/
def stepOp (sq : ℚ → ℚ) (st : DEXBacktester) : Op → DEXBacktester
  | .provide user t0 t1 a0 a1 =>
    match provide_liquidity st user t0 t1 a0 a1 sq with
    | .ok st' => st'
    | .error _ => st
  | .swap user tin tout a =>
    match safe_swap st user tin tout a with
    | .ok (_, st') => st'
    | .error _ => st

/-- Run a sequence of public calls. -/
def runOps (sq : ℚ → ℚ) : DEXBacktester → List Op → DEXBacktester
  | st, [] => st
  | st, op :: rest => runOps sq (stepOp sq st op) rest

/-- A fresh `DEXBacktester()` (AMM with the default 0.3% LP fee and 0.01%
gas fee, no pools, no LP positions) whose users have been funded with the
balances `bal0`, as the demo script does by direct assignment. -/
def initDEX (bal0 : List (String × List (String × ℚ))) : DEXBacktester :=
  ⟨⟨3/1000, 1/10000, []⟩, bal0, []⟩

/-- A liquidity-mint call with positive amounts (swaps excluded). -/
def MintOpOK : Op → Bool
  | .provide _ _ _ a0 a1 => decide (0 < a0) && decide (0 < a1)
  | .swap _ _ _ _ => false

/-- A public call with positive amounts, the two deposit tokens distinct. -/
def SafeOpOK : Op → Bool
  | .provide _ t0 t1 a0 a1 => decide (0 < a0) && decide (0 < a1) && decide (t0 ≠ t1)
  | .swap _ _ _ a => decide (0 < a)

/-- All balances in a funding table are non-negative. -/
def balsNonneg (bal : List (String × List (String × ℚ))) : Bool :=
  bal.all fun p => p.2.all fun q => decide (0 ≤ q.2)

/-- Every stored pool has positive reserves. -/
def ReservesPos (amm : AMM) : Prop :=
  ∀ pn lp, alook pn amm.pools = some lp → 0 < lp.reserve0 ∧ 0 < lp.reserve1

/-- Every stored pool is keyed by its own `pair` name and has positive
reserves and positive LP supply. -/
def PoolsWF (amm : AMM) : Prop :=
  ∀ pn lp, alook pn amm.pools = some lp →
    lp.pair = pn ∧ 0 < lp.reserve0 ∧ 0 < lp.reserve1 ∧ 0 < lp.total_supply

/-- One user's recorded LP shares for pool `pn`. -/
def contribOf (inner : List (String × ℚ)) (pn : String) : ℚ :=
  (alook pn inner).getD 0

/-- The sum over all users of the recorded LP shares for pool `pn`. -/
def sumShares (positions : List (String × List (String × ℚ))) (pn : String) : ℚ :=
  (positions.map fun p => contribOf p.2 pn).sum

/-- The pool's total LP supply for key `pn` (0 if the pool is absent). -/
def supplyOf (amm : AMM) (pn : String) : ℚ :=
  ((alook pn amm.pools).map LPToken.total_supply).getD 0

/-- All token balances of all users are non-negative. -/
def BalancesNonneg (st : DEXBacktester) : Prop :=
  ∀ user token, 0 ≤ getBal st user token

end Backtester

/-- Largest `r ≤ m` with `r * r ≤ n` (0 when `m = 0`). -/
def natSqrtBelow (m n : Nat) : Nat :=
  if m = 0 then 0 else if m * m ≤ n then m else natSqrtBelow (m - 1) n
termination_by m
decreasing_by omega

/-- A computable stand-in for `math.sqrt` on `ℚ`, exact on perfect squares
(the only inputs the concrete traces below feed it; the general theorems
are stated for an arbitrary square-root function). -/
def modelSqrt (x : ℚ) : ℚ :=
  (natSqrtBelow x.num.toNat x.num.toNat : ℚ) / (natSqrtBelow x.den x.den : ℚ)

/-- The worked-example pool of the spec: reserves `(USDC=1000, ETH=1)`,
default 0.3% LP fee and 0.01% gas fee. -/
def Backtester.examplePool : Backtester.LPToken :=
  ⟨Backtester.pairName "USDC" "ETH", "0xUSDC-ETH", 1000, 1, 10, 0⟩

/-- The example AMM holding only the example pool. -/
def Backtester.exampleAMM : Backtester.AMM :=
  ⟨3/1000, 1/10000, [(Backtester.pairName "USDC" "ETH", Backtester.examplePool)]⟩

/-- The example pool after swapping in 100 USDC: reserves
`(1100, 1 − 997/10997)` and `0.3` of accumulated fee. -/
def Backtester.examplePoolAfter : Backtester.LPToken :=
  ⟨Backtester.pairName "USDC" "ETH", "0xUSDC-ETH", 1100, 10000 / 10997, 10, 3 / 10⟩

/-- The example AMM after the swap. -/
def Backtester.exampleAMMAfter : Backtester.AMM :=
  ⟨3/1000, 1/10000, [(Backtester.pairName "USDC" "ETH", Backtester.examplePoolAfter)]⟩

/-- State reached by the first C5 deposit: one pool keyed `"ETH-USDC"`. -/
def Backtester.c5poolA : Backtester.LPToken :=
  ⟨Backtester.pairName "ETH" "USDC", "0x" ++ (Backtester.pairName "ETH" "USDC").take 8,
    1, 1, modelSqrt (1 * 1), 0⟩

/-- The AMM after the first C5 deposit. -/
def Backtester.c5ammA : Backtester.AMM :=
  ⟨3/1000, 1/10000, [(Backtester.pairName "ETH" "USDC", Backtester.c5poolA)]⟩

/-- Pool created by the second C5 deposit, keyed `"USDC-ETH"`. -/
def Backtester.c5poolB : Backtester.LPToken :=
  ⟨Backtester.pairName "USDC" "ETH", "0x" ++ (Backtester.pairName "USDC" "ETH").take 8,
    1, 1, modelSqrt (1 * 1), 0⟩

/-- The AMM after the second C5 deposit: two distinct pools. -/
def Backtester.c5ammB : Backtester.AMM :=
  ⟨3/1000, 1/10000, [(Backtester.pairName "ETH" "USDC", Backtester.c5poolA),
    (Backtester.pairName "USDC" "ETH", Backtester.c5poolB)]⟩


/-- DEX state for the C6 trace: alice holds 1000 USDC, the example pool is
installed. -/
def Backtester.c6state : Backtester.DEXBacktester :=
  ⟨Backtester.exampleAMM, [("alice", [("USDC", 1000)])], []⟩

/-- DEX state after alice swaps 100 USDC for ETH in the C6 trace. -/
def Backtester.c6stateAfter : Backtester.DEXBacktester :=
  ⟨Backtester.exampleAMMAfter,
    [("alice", [("USDC", 900), ("ETH", 9969003 / 109970000)])], []⟩


/-- Pool used in the C3 trace: its address carries the SushiSwap fork
identity prefix `0x795065`. -/
def Backtester.c3pool : Backtester.LPToken :=
  ⟨Backtester.pairName "ETH" "USDC", "0x795065abcd", 100, 100, 10, 0⟩

/-- DEX state for the C3 trace: bob holds 10 ETH, the flagged pool is
installed. -/
def Backtester.c3state : Backtester.DEXBacktester :=
  ⟨⟨3/1000, 1/10000, [(Backtester.pairName "ETH" "USDC", Backtester.c3pool)]⟩,
    [("bob", [("ETH", 10)])], []⟩


/-- DEX state for the C7 trace: alice holds 2000 of each token; the example
pool has reserves `(1000, 1)`, so its reserve ratio is 1000:1. -/
def Backtester.c7state : Backtester.DEXBacktester :=
  ⟨Backtester.exampleAMM, [("alice", [("USDC", 2000), ("ETH", 2000)])], []⟩

/-- The example pool after the imbalanced C7 deposit `(1000, 1000)`. -/
def Backtester.c7poolAfter : Backtester.LPToken :=
  ⟨Backtester.pairName "USDC" "ETH", "0xUSDC-ETH", 2000, 1001, 20, 0⟩

/-- DEX state after the imbalanced C7 deposit is accepted. -/
def Backtester.c7stateAfter : Backtester.DEXBacktester :=
  ⟨⟨3/1000, 1/10000, [(Backtester.pairName "USDC" "ETH", Backtester.c7poolAfter)]⟩,
    [("alice", [("USDC", 1000), ("ETH", 1000)])],
    [("alice", [(Backtester.pairName "USDC" "ETH", 10)])]⟩


/-- All values of one user's token-balance dict are non-negative. -/
def Backtester.InnerNonneg (inner : List (String × ℚ)) : Prop :=
  ∀ t, 0 ≤ (alook t inner).getD 0

/-- Funding table for the C8 traces. -/
def Backtester.c8bal : List (String × List (String × ℚ)) := [("alice", [("A", 1)])]

/-- Funding table for the C8 witness trace. -/
def Backtester.c8balW : List (String × List (String × ℚ)) :=
  [("alice", [("A", 5), ("B", 5)])]


/-- Funding table for the C2 witness trace. -/
def Backtester.c2bal : List (String × List (String × ℚ)) :=
  [("alice", [("USDC", 100), ("ETH", 100)]), ("bob", [("USDC", 100), ("ETH", 100)])]


/-- Operation list for the C2 witness trace. -/
def Backtester.c2ops : List Backtester.Op :=
  [.provide "alice" "USDC" "ETH" 4 9, .provide "bob" "USDC" "ETH" 2 (9/2)]


/-- Funding table for the C2 counterexample trace. -/
def Backtester.c2badBal : List (String × List (String × ℚ)) :=
  [("alice", [("A", 1), ("B", 1)])]

/-- Operation list for the C2 counterexample trace: a normal seed deposit
followed by a negative-amounts deposit, which the balance checks let
through. -/
def Backtester.c2badOps : List Backtester.Op :=
  [.provide "alice" "A" "B" 1 1, .provide "alice" "A" "B" (-1/2) (-3/2)]

section AssocListLemmas

variable {α : Type}

theorem alook_aset_self (m : List (String × α)) (k : String) (v : α) :
    alook k (aset k v m) = some v := by
  induction m with
  | nil => simp [alook, aset]
  | cons hd tl ih =>
    rcases hd with ⟨a, b⟩
    by_cases hh : a = k
    · subst hh
      simp [alook, aset]
    · simp [alook, aset, hh, ih]

theorem alook_aset_ne (m : List (String × α)) (k k' : String) (v : α) (h : k' ≠ k) :
    alook k' (aset k v m) = alook k' m := by
  induction m with
  | nil => simp [alook, aset, Ne.symm h]
  | cons hd tl ih =>
    rcases hd with ⟨a, b⟩
    by_cases hh : a = k
    · subst hh
      simp [alook, aset, Ne.symm h]
    · simp [alook, aset, hh, ih]

theorem alook_mem (m : List (String × α)) (k : String) (v : α) (h : alook k m = some v) :
    (k, v) ∈ m := by
  induction m with
  | nil => simp [alook] at h
  | cons hd tl ih =>
    rcases hd with ⟨a, b⟩
    by_cases hh : a = k
    · subst hh
      simp [alook] at h
      subst h
      exact List.mem_cons_self _ _
    · simp [alook, hh] at h
      exact List.mem_cons_of_mem _ (ih h)

theorem akeys_aset_of_mem (m : List (String × α)) (k : String) (v : α)
    (h : k ∈ akeys m) : akeys (aset k v m) = akeys m := by
  induction m with
  | nil => simp [akeys] at h
  | cons hd tl ih =>
    rcases hd with ⟨a, b⟩
    by_cases hh : a = k
    · subst hh
      simp [aset, akeys]
    · have h' : k ∈ akeys tl := by
        simp [akeys] at h ⊢
        rcases h with h | h
        · exact absurd h.symm hh
        · exact h
      have ihh := ih h'
      simp [aset, akeys, hh] at ihh ⊢
      exact ihh

end AssocListLemmas

theorem pyLower_pyStartsWith (s p : String) (hp : pyStartsWith s p = true)
    (hlow : pyLower p = p) : pyStartsWith (pyLower s) p = true := by
  have hdata : p.data.map Char.toLower = p.data := congrArg String.data hlow
  rw [pyStartsWith, List.isPrefixOf_iff_prefix] at hp ⊢
  rw [pyLower]
  calc p.data = p.data.map Char.toLower := hdata.symm
    _ <+: s.data.map Char.toLower := hp.map Char.toLower

/-- C10: `ForkDetector.query_pool` depends on the pool address only through
its lowercased form: two addresses with the same lowercasing are classified
identically (same name, fork flag, original protocol and risk score). -/
theorem ForkDetector.query_pool_case_insensitive (a b : String)
    (h : pyLower a = pyLower b) :
    ForkDetector.query_pool a = ForkDetector.query_pool b := by
  simp [ForkDetector.query_pool, h]

theorem ForkDetector.query_pool_case_insensitive_witness :
    pyLower "0xB4E16D" = pyLower "0xb4e16d" ∧
      ForkDetector.query_pool "0xB4E16D" = ForkDetector.query_pool "0xb4e16d" :=
  ⟨by decide, ForkDetector.query_pool_case_insensitive "0xB4E16D" "0xb4e16d" (by decide)⟩

/-- C9: the two-token AMM of `amm.py` charges no fee and preserves the
constant product exactly: on a pool with two distinct tokens and positive
reserves, a swap of `a > 0` units of either token succeeds, sets the output
reserve to `k / (reserve_in + a)`, and the product of the two reserves
after the swap equals the product before, with exact equality. -/
theorem Amm.constant_product_exact (t0 t1 tin : String) (r0 r1 a : ℚ)
    (h01 : t0 ≠ t1) (hr0 : 0 < r0) (hr1 : 0 < r1) (ha : 0 < a)
    (htin : tin = t0 ∨ tin = t1) :
    ∃ out s', Amm.AMM.execute_swap ⟨[(t0, r0), (t1, r1)]⟩ a tin = some (out, s') ∧
      (alook t0 s'.reserves).getD 0 * (alook t1 s'.reserves).getD 0 = r0 * r1 ∧
      (alook (if tin = t0 then t1 else t0) s'.reserves).getD 0
        = (if tin = t0 then r0 else r1) * (if tin = t0 then r1 else r0)
            / ((if tin = t0 then r0 else r1) + a) := by
  have h10 : t1 ≠ t0 := Ne.symm h01
  rcases htin with rfl | rfl
  · have hden : r0 + a ≠ 0 := by positivity
    have hrun : Amm.AMM.execute_swap ⟨[(tin, r0), (t1, r1)]⟩ a tin =
        some (r1 - r0 * r1 / (r0 + a), ⟨[(tin, r0 + a), (t1, r0 * r1 / (r0 + a))]⟩) := by
      simp [Amm.AMM.execute_swap, Amm.other_token, alook, aset, h01, h10, hden]
    refine ⟨_, _, hrun, ?_, ?_⟩
    · simp only [alook, if_pos rfl, if_neg h10, if_neg h01, Option.getD_some,
        Option.getD_none]
      field_simp
    · simp [alook, h01, h10]
  · have hden : r1 + a ≠ 0 := by positivity
    have hrun : Amm.AMM.execute_swap ⟨[(t0, r0), (tin, r1)]⟩ a tin =
        some (r0 - r1 * r0 / (r1 + a), ⟨[(t0, r1 * r0 / (r1 + a)), (tin, r1 + a)]⟩) := by
      simp [Amm.AMM.execute_swap, Amm.other_token, alook, aset, h01, h10, hden]
    refine ⟨_, _, hrun, ?_, ?_⟩
    · simp only [alook, if_pos rfl, if_neg h10, if_neg h01, Option.getD_some]
      field_simp
      ring
    · simp [alook, h01, h10]

theorem Amm.constant_product_exact_witness :
    ("USDC" : String) ≠ "ETH" ∧
      (∃ out s', Amm.AMM.execute_swap ⟨[("USDC", 1000), ("ETH", 1)]⟩ 100 "USDC" =
          some (out, s') ∧
        (alook "USDC" s'.reserves).getD 0 * (alook "ETH" s'.reserves).getD 0 = 1000 * 1 ∧
        (alook (if ("USDC" : String) = "USDC" then "ETH" else "USDC") s'.reserves).getD 0
          = (if ("USDC" : String) = "USDC" then (1000 : ℚ) else 1) *
              (if ("USDC" : String) = "USDC" then (1 : ℚ) else 1000)
              / ((if ("USDC" : String) = "USDC" then (1000 : ℚ) else 1) + 100)) :=
  ⟨by decide,
    Amm.constant_product_exact "USDC" "ETH" "USDC" 1000 1 100 (by decide)
      (by norm_num) (by norm_num) (by norm_num) (Or.inl rfl)⟩

/-- C1: constant-product monotonicity of `backtester.AMM.execute_swap`. For
any pool with positive reserves, any LP fee rate in `[0, 1]` and any swap
with `amount_in > 0`, the product `k = reserve0 * reserve1` satisfies
`k_after ≥ k_before`, with equality exactly when the fee rate is 0; the
updated reserves stay positive, so the bound applies at every swap of a
sequence. -/
theorem Backtester.constant_product_monotone (amm : Backtester.AMM)
    (token_in token_out : String) (a ret : ℚ) (lp lp' : Backtester.LPToken)
    (amm' : Backtester.AMM)
    (hf0 : 0 ≤ amm.fee) (hf1 : amm.fee ≤ 1)
    (hpool : alook (Backtester.pairName token_in token_out) amm.pools = some lp)
    (h0 : 0 < lp.reserve0) (h1 : 0 < lp.reserve1) (ha : 0 < a)
    (hrun : amm.execute_swap token_in token_out a = .ok (ret, lp', amm')) :
    lp.reserve0 * lp.reserve1 ≤ lp'.reserve0 * lp'.reserve1 ∧
      (lp'.reserve0 * lp'.reserve1 = lp.reserve0 * lp.reserve1 ↔ amm.fee = 0) ∧
      0 < lp'.reserve0 ∧ 0 < lp'.reserve1 := by
  have haiwf : 0 ≤ a * (1 - amm.fee) := mul_nonneg ha.le (by linarith)
  have hden : 0 < lp.reserve0 + a * (1 - amm.fee) := by linarith
  rw [Backtester.AMM.execute_swap, hpool] at hrun
  simp only [if_neg hden.ne', Except.ok.injEq, Prod.mk.injEq] at hrun
  obtain ⟨-, hlp', -⟩ := hrun
  subst hlp'
  set r0 := lp.reserve0
  set r1 := lp.reserve1
  set f := amm.fee
  have hr1' : r1 - a * (1 - f) * r1 / (r0 + a * (1 - f)) = r0 * r1 / (r0 + a * (1 - f)) := by
    field_simp
    ring
  have hX : (r0 + a) * (r0 * r1 / (r0 + a * (1 - f)))
      = (r0 + a) * r0 * r1 / (r0 + a * (1 - f)) := by ring
  refine ⟨?_, ?_, by linarith, ?_⟩
  · simp only [hr1']
    rw [hX, le_div_iff₀ hden]
    nlinarith [mul_nonneg (mul_nonneg (mul_nonneg h0.le h1.le) ha.le) hf0]
  · simp only [hr1']
    rw [hX, div_eq_iff hden.ne']
    constructor
    · intro h
      have hz : r0 * r1 * a * f = 0 := by nlinarith
      have hra : r0 * r1 * a ≠ 0 := by positivity
      rcases mul_eq_zero.mp hz with h' | h'
      · exact absurd h' hra
      · exact h'
    · intro h
      rw [h]
      ring
  · simp only [hr1']
    positivity

theorem Backtester.constant_product_monotone_witness :
    (0 : ℚ) < 100 ∧
      ((1000 : ℚ) * 1 ≤ 1100 * (10000 / 10997) ∧
        ((1100 : ℚ) * (10000 / 10997) = 1000 * 1 ↔ (3 / 1000 : ℚ) = 0) ∧
        (0 : ℚ) < 1100 ∧ (0 : ℚ) < 10000 / 10997) := by
  constructor
  · norm_num
  · exact Backtester.constant_product_monotone
      ⟨3/1000, 1/10000, [(Backtester.pairName "USDC" "ETH",
        ⟨Backtester.pairName "USDC" "ETH", "0xUSDC-ETH", 1000, 1, 10, 0⟩)]⟩
      "USDC" "ETH" 100 (9969003 / 109970000)
      ⟨Backtester.pairName "USDC" "ETH", "0xUSDC-ETH", 1000, 1, 10, 0⟩
      ⟨Backtester.pairName "USDC" "ETH", "0xUSDC-ETH", 1100, 10000 / 10997, 10, 3 / 10⟩
      ⟨3/1000, 1/10000, [(Backtester.pairName "USDC" "ETH",
        ⟨Backtester.pairName "USDC" "ETH", "0xUSDC-ETH", 1100, 10000 / 10997, 10, 3 / 10⟩)]⟩
      (by norm_num) (by norm_num)
      (by simp [alook]) (by norm_num) (by norm_num) (by norm_num)
      (by norm_num [Backtester.AMM.execute_swap, alook, aset])

/-- C4 counterexample: on the pool seeded with `(USDC=1000, ETH=1)` and fee
0.3%, swapping in 100 USDC does not yield `amountOut ≈ 0.0909090…`: the
pool-level output is `997/10997 ≈ 0.0906611`, the caller receives that
reduced further by the 0.01% gas fee, and both differ from `0.0909090909`
by more than `10⁻⁴`; hence the claimed conjunction fails at this input. -/
theorem Backtester.example_quote_counterexample :
    Backtester.AMM.execute_swap Backtester.exampleAMM "USDC" "ETH" 100 =
      .ok (9969003 / 109970000, Backtester.examplePoolAfter, Backtester.exampleAMMAfter) ∧
      Backtester.examplePool.reserve1 - Backtester.examplePoolAfter.reserve1 = 997 / 10997 ∧
      |(997 / 10997 : ℚ) - 909090909 / 10000000000| > 1 / 10000 ∧
      |(9969003 / 109970000 : ℚ) - 909090909 / 10000000000| > 1 / 10000 := by
  refine ⟨?_, ?_, ?_, ?_⟩
  · norm_num [Backtester.AMM.execute_swap, Backtester.exampleAMM, Backtester.examplePool,
      Backtester.examplePoolAfter, Backtester.exampleAMMAfter, alook, aset]
  · norm_num [Backtester.examplePool, Backtester.examplePoolAfter]
  · rw [abs_of_neg (by norm_num)]
    norm_num
  · rw [abs_of_neg (by norm_num)]
    norm_num

/-- C4 amended: on the pool seeded with `(USDC=1000, ETH=1)` and fee 0.3%,
swapping in 100 USDC gives a pool-level `amountOut = 997/10997 ≈ 0.0906611`
(the caller receives it reduced by the 0.01% gas fee), the reserves become
`(1100, 1 − 997/10997)`, and `k` strictly increases from `1000` to
`11000000/10997 ≈ 1000.27` (within `0.01` of `1000.27`). -/
theorem Backtester.example_swap_amended :
    Backtester.AMM.execute_swap Backtester.exampleAMM "USDC" "ETH" 100 =
      .ok ((997 / 10997) * (1 - 1 / 10000), Backtester.examplePoolAfter,
        Backtester.exampleAMMAfter) ∧
      Backtester.examplePoolAfter.reserve0 = 1000 + 100 ∧
      Backtester.examplePoolAfter.reserve1 = 1 - 997 / 10997 ∧
      |(997 / 10997 : ℚ) - 906611 / 10000000| < 1 / 10000 ∧
      Backtester.examplePool.reserve0 * Backtester.examplePool.reserve1 = 1000 ∧
      Backtester.examplePoolAfter.reserve0 * Backtester.examplePoolAfter.reserve1 =
        11000000 / 10997 ∧
      (1000 : ℚ) < 11000000 / 10997 ∧
      |(11000000 / 10997 : ℚ) - 100027 / 100| < 1 / 100 := by
  refine ⟨?_, ?_, ?_, ?_, ?_, ?_, ?_, ?_⟩
  · norm_num [Backtester.AMM.execute_swap, Backtester.exampleAMM, Backtester.examplePool,
      Backtester.examplePoolAfter, Backtester.exampleAMMAfter, alook, aset]
  · norm_num [Backtester.examplePoolAfter]
  · norm_num [Backtester.examplePoolAfter]
  · rw [abs_of_neg (by norm_num)]
    norm_num
  · norm_num [Backtester.examplePool]
  · norm_num [Backtester.examplePoolAfter]
  · norm_num
  · rw [abs_of_pos (by norm_num)]
    norm_num

/-- C5 counterexample: pool pair keys are not canonicalized. Starting from
a fresh `AMM()`, depositing liquidity for `("ETH","USDC")` and then for
`("USDC","ETH")` creates two distinct pools, keyed `"ETH-USDC"` and
`"USDC-ETH"`, instead of resolving to one and the same pool. -/
theorem Backtester.pair_key_not_canonical_counterexample :
    Backtester.AMM.add_liquidity ⟨3/1000, 1/10000, []⟩ "ETH" "USDC" 1 1 modelSqrt =
        .ok (Backtester.c5poolA, Backtester.c5ammA) ∧
      Backtester.AMM.add_liquidity Backtester.c5ammA "USDC" "ETH" 1 1 modelSqrt =
        .ok (Backtester.c5poolB, Backtester.c5ammB) ∧
      akeys Backtester.c5ammB.pools =
        [Backtester.pairName "ETH" "USDC", Backtester.pairName "USDC" "ETH"] ∧
      Backtester.pairName "ETH" "USDC" ≠ Backtester.pairName "USDC" "ETH" := by
  refine ⟨?_, ?_, ?_, ?_⟩
  · simp [Backtester.AMM.add_liquidity, Backtester.c5poolA, Backtester.c5ammA,
      Backtester.pairName, alook, aset]
  · simp [Backtester.AMM.add_liquidity, Backtester.c5poolA, Backtester.c5ammA,
      Backtester.c5poolB, Backtester.c5ammB, Backtester.pairName, alook, aset]
  · simp [akeys, Backtester.c5ammB]
  · decide

/-- C5 amended: the pool key is the ordered concatenation `"{t0}-{t1}"`, so
`(A,B)` and `(B,A)` do not resolve to one pool (see the counterexample);
what does hold is that a repeated deposit with the same token order finds
the existing pool and creates no second pool: the key set of the pool table
is unchanged. -/
theorem Backtester.pair_key_ordered_idempotent (amm : Backtester.AMM)
    (t0 t1 : String) (a0 a1 : ℚ) (sq : ℚ → ℚ) (p : Backtester.LPToken)
    (hp : alook (Backtester.pairName t0 t1) amm.pools = some p)
    (h0 : p.reserve0 ≠ 0) (h1 : p.reserve1 ≠ 0) :
    ∃ lp amm', Backtester.AMM.add_liquidity amm t0 t1 a0 a1 sq = .ok (lp, amm') ∧
      akeys amm'.pools = akeys amm.pools := by
  rw [Backtester.AMM.add_liquidity, hp]
  simp only [if_neg (not_or.mpr ⟨h0, h1⟩)]
  refine ⟨_, _, rfl, ?_⟩
  exact akeys_aset_of_mem _ _ _ (List.mem_map_of_mem Prod.fst (alook_mem _ _ _ hp))

theorem Backtester.pair_key_ordered_idempotent_witness :
    ((1 : ℚ) ≠ 0) ∧
      (∃ lp amm', Backtester.AMM.add_liquidity
          ⟨3/1000, 1/10000, [(Backtester.pairName "ETH" "USDC",
            ⟨Backtester.pairName "ETH" "USDC", "0xETH-USDC", 1, 1, 1, 0⟩)]⟩
          "ETH" "USDC" 2 3 modelSqrt = .ok (lp, amm') ∧
        akeys amm'.pools = akeys (⟨3/1000, 1/10000, [(Backtester.pairName "ETH" "USDC",
            ⟨Backtester.pairName "ETH" "USDC", "0xETH-USDC", 1, 1, 1, 0⟩)]⟩ :
              Backtester.AMM).pools) :=
  ⟨by norm_num,
    Backtester.pair_key_ordered_idempotent _ "ETH" "USDC" 2 3 modelSqrt
      ⟨Backtester.pairName "ETH" "USDC", "0xETH-USDC", 1, 1, 1, 0⟩
      (by simp [alook]) (by norm_num) (by norm_num)⟩

/-- C6 counterexample: in a successful `safe_swap` the amount returned and
credited to the account differs from the pool's reserve decrease: the pool
reserve drops by `997/10997` while the caller is credited
`(997/10997)·(1 − 0.0001) = 9969003/109970000`, because the gas fee is
charged on the output but not reflected in the reserves. -/
theorem Backtester.swap_output_gas_counterexample :
    Backtester.safe_swap Backtester.c6state "alice" "USDC" "ETH" 100 =
      .ok (9969003 / 109970000, Backtester.c6stateAfter) ∧
      Backtester.examplePool.reserve1 - Backtester.examplePoolAfter.reserve1 = 997 / 10997 ∧
      Backtester.getBal Backtester.c6stateAfter "alice" "ETH" = 9969003 / 109970000 ∧
      (9969003 / 109970000 : ℚ) ≠ 997 / 10997 := by
  refine ⟨?_, ?_, ?_, ?_⟩
  · norm_num [Backtester.safe_swap, Backtester.AMM.execute_swap,
      Backtester.c6state, Backtester.c6stateAfter, Backtester.exampleAMM,
      Backtester.examplePool, Backtester.exampleAMMAfter, Backtester.examplePoolAfter,
      alook, aset,
      (by decide : ("USDC" : String) ≠ "ETH"), (by decide : ("ETH" : String) ≠ "USDC"),
      (by decide : ForkDetector.is_vampire_fork "0xUSDC-ETH" = false)]
    intro habs
    norm_num [Backtester.getBal, alook] at habs
  · norm_num [Backtester.examplePool, Backtester.examplePoolAfter]
  · norm_num [Backtester.getBal, Backtester.c6stateAfter, alook,
      (by decide : ("USDC" : String) ≠ "ETH")]
  · norm_num

/-- C6 amended: for every successful `safe_swap`, the amount returned and
credited to the account's `token_out` balance equals `(1 − gas_fee)` times
the decrease of the pool's output reserve (so it equals the reserve
decrease itself only when the gas fee is 0). -/
theorem Backtester.swap_output_reserve_decrease (st : Backtester.DEXBacktester)
    (user tin tout : String) (a ret : ℚ) (st' : Backtester.DEXBacktester)
    (lp : Backtester.LPToken)
    (hlp : alook (Backtester.pairName tin tout) st.amm.pools = some lp)
    (hio : tin ≠ tout)
    (h : Backtester.safe_swap st user tin tout a = .ok (ret, st')) :
    ∃ lp', alook (Backtester.pairName tin tout) st'.amm.pools = some lp' ∧
      ret = (1 - st.amm.gas_fee) * (lp.reserve1 - lp'.reserve1) ∧
      Backtester.getBal st' user tout = Backtester.getBal st user tout + ret := by
  simp only [Backtester.safe_swap, Backtester.AMM.execute_swap, hlp] at h
  by_cases hb : Backtester.getBal st user tin < a
  · rw [if_pos hb] at h
    simp at h
  · rw [if_neg hb] at h
    by_cases hv : ForkDetector.is_vampire_fork lp.address = true
    · rw [if_pos hv] at h
      simp at h
    · rw [if_neg hv] at h
      by_cases hz : lp.reserve0 + a * (1 - st.amm.fee) = 0
      · rw [if_pos hz] at h
        simp at h
      · rw [if_neg hz] at h
        simp only [Except.ok.injEq, Prod.mk.injEq] at h
        obtain ⟨hret, hst'⟩ := h
        subst hret
        subst hst'
        refine ⟨_, alook_aset_self _ _ _, ?_, ?_⟩
        · ring
        · simp only [Backtester.getBal, alook_aset_self, Option.getD_some]
          rw [alook_aset_ne _ _ _ _ (Ne.symm hio)]

theorem Backtester.swap_output_reserve_decrease_witness :
    ("USDC" : String) ≠ "ETH" ∧
      (∃ lp', alook (Backtester.pairName "USDC" "ETH")
            Backtester.c6stateAfter.amm.pools = some lp' ∧
        (9969003 / 109970000 : ℚ) =
          (1 - Backtester.c6state.amm.gas_fee) *
            (Backtester.examplePool.reserve1 - lp'.reserve1) ∧
        Backtester.getBal Backtester.c6stateAfter "alice" "ETH" =
          Backtester.getBal Backtester.c6state "alice" "ETH" + 9969003 / 109970000) :=
  ⟨by decide,
    Backtester.swap_output_reserve_decrease Backtester.c6state "alice" "USDC" "ETH"
      100 (9969003 / 109970000) Backtester.c6stateAfter Backtester.examplePool
      (by simp [Backtester.c6state, Backtester.exampleAMM, alook])
      (by decide)
      (by
        norm_num [Backtester.safe_swap, Backtester.AMM.execute_swap,
          Backtester.c6state, Backtester.c6stateAfter, Backtester.exampleAMM,
          Backtester.examplePool, Backtester.exampleAMMAfter, Backtester.examplePoolAfter,
          alook, aset,
          (by decide : ("USDC" : String) ≠ "ETH"), (by decide : ("ETH" : String) ≠ "USDC"),
          (by decide : ForkDetector.is_vampire_fork "0xUSDC-ETH" = false)]
        intro habs
        norm_num [Backtester.getBal, alook] at habs)⟩

/-- C3: the risk gate blocks forks atomically. The fork table hard-codes
the identity prefix `0x795065` as a fork, so a `safe_swap` with sufficient
balance against a pool whose address starts with that prefix fails with the
security-blocked error, and the failed operation leaves the entire state —
every pool reserve and every account balance — unchanged. -/
theorem Backtester.risk_gate_blocks (st : Backtester.DEXBacktester)
    (user tin tout : String) (a : ℚ) (lp : Backtester.LPToken)
    (hlp : alook (Backtester.pairName tin tout) st.amm.pools = some lp)
    (hpre : pyStartsWith lp.address "0x795065" = true)
    (hb : ¬ (Backtester.getBal st user tin < a)) :
    Backtester.safe_swap st user tin tout a = .error .securityBlocked ∧
      ∀ sq, Backtester.stepOp sq st (.swap user tin tout a) = st := by
  have hlow : pyStartsWith (pyLower lp.address) "0x795065" = true :=
    pyLower_pyStartsWith _ _ hpre (by decide)
  have hfork : ForkDetector.is_vampire_fork lp.address = true := by
    simp [ForkDetector.is_vampire_fork, ForkDetector.query_pool,
      ForkDetector.classifyLowered, hlow]
  have hss : Backtester.safe_swap st user tin tout a = .error .securityBlocked := by
    simp only [Backtester.safe_swap, hlp]
    rw [if_neg hb, if_pos hfork]
  exact ⟨hss, fun sq => by simp [Backtester.stepOp, hss]⟩

theorem Backtester.risk_gate_blocks_witness :
    pyStartsWith Backtester.c3pool.address "0x795065" = true ∧
      Backtester.safe_swap Backtester.c3state "bob" "ETH" "USDC" 5 =
        .error .securityBlocked ∧
      Backtester.stepOp modelSqrt Backtester.c3state (.swap "bob" "ETH" "USDC" 5) =
        Backtester.c3state :=
  ⟨by decide,
    (Backtester.risk_gate_blocks Backtester.c3state "bob" "ETH" "USDC" 5 Backtester.c3pool
      (by simp [Backtester.c3state, alook]) (by decide)
      (by norm_num [Backtester.getBal, Backtester.c3state, alook])).1,
    (Backtester.risk_gate_blocks Backtester.c3state "bob" "ETH" "USDC" 5 Backtester.c3pool
      (by simp [Backtester.c3state, alook]) (by decide)
      (by norm_num [Backtester.getBal, Backtester.c3state, alook])).2 modelSqrt⟩

/-- C7 counterexample: depositing `(1000, 1000)` into the pool with
reserves `(1000, 1)` — a deposit ratio of 1:1 against a reserve ratio of
1000:1, off by far more than any 1% tolerance — does not fail with an
imbalanced-deposit error: it succeeds, mints
`min(1000/1000, 1000/1)·10 = 10` shares and grows the reserves to
`(2000, 1001)`. -/
theorem Backtester.imbalanced_deposit_accepted_counterexample :
    Backtester.provide_liquidity Backtester.c7state "alice" "USDC" "ETH" 1000 1000
        modelSqrt = .ok Backtester.c7stateAfter ∧
      Backtester.supplyOf Backtester.c7stateAfter.amm
          (Backtester.pairName "USDC" "ETH") = 20 ∧
      |(1000 : ℚ) / 1000 - 1000 / 1| > (1 / 100) * (1000 / 1) := by
  refine ⟨?_, ?_, ?_⟩
  · norm_num [Backtester.provide_liquidity, Backtester.AMM.add_liquidity,
      Backtester.c7state, Backtester.c7stateAfter, Backtester.c7poolAfter,
      Backtester.exampleAMM, Backtester.examplePool,
      alook, aset, min_def,
      (by decide : ("USDC" : String) ≠ "ETH"), (by decide : ("ETH" : String) ≠ "USDC")]
    intro habs
    norm_num [Backtester.getBal, alook] at habs
  · norm_num [Backtester.supplyOf, Backtester.c7stateAfter, Backtester.c7poolAfter, alook]
  · rw [abs_of_neg (by norm_num)]
    norm_num

/-- C7 amended: a liquidity deposit into an existing pool with positive
reserves and supply is accepted whatever its ratio — the code has no
tolerance check and no imbalanced-deposit error — and the pool's share
issuance always follows
`sharesIssued = min(amount0/reserve0, amount1/reserve1) * totalShares`. -/
theorem Backtester.deposit_any_ratio_accepted (st : Backtester.DEXBacktester)
    (user t0 t1 : String) (a0 a1 : ℚ) (sq : ℚ → ℚ) (p : Backtester.LPToken) (v0 v1 : ℚ)
    (hp : alook (Backtester.pairName t0 t1) st.amm.pools = some p)
    (hr0 : 0 < p.reserve0) (hr1 : 0 < p.reserve1) (hS : 0 < p.total_supply)
    (ha0 : 0 < a0) (ha1 : 0 < a1)
    (hv0 : alook t0 ((alook user st.user_balances).getD []) = some v0)
    (hv1 : alook t1 ((alook user st.user_balances).getD []) = some v1)
    (hb0 : a0 ≤ v0) (hb1 : a1 ≤ v1) :
    ∃ st', Backtester.provide_liquidity st user t0 t1 a0 a1 sq = .ok st' ∧
      Backtester.supplyOf st'.amm (Backtester.pairName t0 t1) =
        p.total_supply + min (a0 / p.reserve0) (a1 / p.reserve1) * p.total_supply := by
  have hg0 : Backtester.getBal st user t0 = v0 := by
    simp [Backtester.getBal, hv0]
  have hg1 : Backtester.getBal st user t1 = v1 := by
    simp [Backtester.getBal, hv1]
  have hck : ¬ (Backtester.getBal st user t0 < a0 ∨ Backtester.getBal st user t1 < a1) := by
    rw [hg0, hg1]
    push_neg
    exact ⟨hb0, hb1⟩
  have hrz : ¬ (p.reserve0 = 0 ∨ p.reserve1 = 0) := not_or.mpr ⟨hr0.ne', hr1.ne'⟩
  have hmin : 0 < min (a0 / p.reserve0) (a1 / p.reserve1) :=
    lt_min (by positivity) (by positivity)
  have hS' : ¬ (p.total_supply + min (a0 / p.reserve0) (a1 / p.reserve1) * p.total_supply = 0) := by
    have hm := mul_pos hmin hS
    have : 0 < p.total_supply + min (a0 / p.reserve0) (a1 / p.reserve1) * p.total_supply := by
      linarith
    exact this.ne'
  have hrz' : ¬ (p.reserve0 + a0 = 0 ∨ p.reserve1 + a1 = 0) := by
    push_neg
    exact ⟨(by positivity : (0:ℚ) < p.reserve0 + a0).ne',
      (by positivity : (0:ℚ) < p.reserve1 + a1).ne'⟩
  obtain ⟨w, hw⟩ : ∃ w,
      alook t1 (aset t0 (v0 - a0) ((alook user st.user_balances).getD [])) = some w := by
    by_cases h : t1 = t0
    · subst h
      exact ⟨_, alook_aset_self _ _ _⟩
    · exact ⟨v1, by rw [alook_aset_ne _ _ _ _ h]; exact hv1⟩
  obtain ⟨st', hrun⟩ : ∃ st',
      Backtester.provide_liquidity st user t0 t1 a0 a1 sq = .ok st' := by
    simp only [Backtester.provide_liquidity, Backtester.AMM.add_liquidity, hp]
    rw [if_neg hck, if_neg hrz]
    simp only [hv0, hw]
    rw [if_neg hS', if_neg hrz']
    exact ⟨_, rfl⟩
  refine ⟨st', hrun, ?_⟩
  simp only [Backtester.provide_liquidity, Backtester.AMM.add_liquidity, hp] at hrun
  rw [if_neg hck, if_neg hrz] at hrun
  simp only [hv0, hw] at hrun
  rw [if_neg hS', if_neg hrz'] at hrun
  simp only [Except.ok.injEq] at hrun
  subst hrun
  simp only [Backtester.supplyOf]
  rw [alook_aset_self]
  rfl

theorem Backtester.deposit_any_ratio_accepted_witness :
    (0 : ℚ) < 1000 ∧
      (∃ st', Backtester.provide_liquidity Backtester.c7state "alice" "USDC" "ETH"
          1000 1000 modelSqrt = .ok st' ∧
        Backtester.supplyOf st'.amm (Backtester.pairName "USDC" "ETH") =
          Backtester.examplePool.total_supply +
            min (1000 / Backtester.examplePool.reserve0)
              (1000 / Backtester.examplePool.reserve1) *
              Backtester.examplePool.total_supply) :=
  ⟨by norm_num,
    Backtester.deposit_any_ratio_accepted Backtester.c7state "alice" "USDC" "ETH"
      1000 1000 modelSqrt Backtester.examplePool 2000 2000
      (by simp [Backtester.c7state, Backtester.exampleAMM, alook])
      (by norm_num [Backtester.examplePool]) (by norm_num [Backtester.examplePool])
      (by norm_num [Backtester.examplePool]) (by norm_num) (by norm_num)
      (by simp [Backtester.c7state, alook])
      (by simp [Backtester.c7state, alook, (by decide : ("USDC" : String) ≠ "ETH")])
      (by norm_num) (by norm_num)⟩

theorem Backtester.swap_ok_cases (st : Backtester.DEXBacktester)
    (user tin tout : String) (a ret : ℚ) (st' : Backtester.DEXBacktester)
    (h : Backtester.safe_swap st user tin tout a = .ok (ret, st')) :
    ¬ (Backtester.getBal st user tin < a) ∧
    ∃ lp, alook (Backtester.pairName tin tout) st.amm.pools = some lp ∧
      lp.reserve0 + a * (1 - st.amm.fee) ≠ 0 ∧
      ret = a * (1 - st.amm.fee) * lp.reserve1 / (lp.reserve0 + a * (1 - st.amm.fee)) *
        (1 - st.amm.gas_fee) ∧
      st' = ⟨⟨st.amm.fee, st.amm.gas_fee,
        aset (Backtester.pairName tin tout)
          (⟨lp.pair, lp.address, lp.reserve0 + a,
            lp.reserve1 -
              a * (1 - st.amm.fee) * lp.reserve1 / (lp.reserve0 + a * (1 - st.amm.fee)),
            lp.total_supply, lp.fee_accumulated + a * st.amm.fee⟩)
          st.amm.pools⟩,
        aset user (aset tout
          ((alook tout (aset tin ((alook tin ((alook user st.user_balances).getD [])).getD 0 - a)
            ((alook user st.user_balances).getD []))).getD 0 + ret)
          (aset tin ((alook tin ((alook user st.user_balances).getD [])).getD 0 - a)
            ((alook user st.user_balances).getD []))) st.user_balances,
        st.user_lp_positions⟩ := by
  simp only [Backtester.safe_swap, Backtester.AMM.execute_swap] at h
  by_cases hb : Backtester.getBal st user tin < a
  · rw [if_pos hb] at h
    simp at h
  · rw [if_neg hb] at h
    refine ⟨hb, ?_⟩
    rcases hlp : alook (Backtester.pairName tin tout) st.amm.pools with _ | lp
    · simp only [hlp] at h
      simp at h
    · simp only [hlp] at h
      by_cases hv : ForkDetector.is_vampire_fork lp.address = true
      · rw [if_pos hv] at h
        simp at h
      · rw [if_neg hv] at h
        by_cases hz : lp.reserve0 + a * (1 - st.amm.fee) = 0
        · rw [if_pos hz] at h
          simp at h
        · rw [if_neg hz] at h
          simp only [Except.ok.injEq, Prod.mk.injEq] at h
          obtain ⟨hret, hst'⟩ := h
          refine ⟨lp, rfl, hz, hret.symm, ?_⟩
          rw [← hst', ← hret]

theorem Backtester.provide_ok_cases (st : Backtester.DEXBacktester)
    (user t0 t1 : String) (a0 a1 : ℚ) (sq : ℚ → ℚ) (st' : Backtester.DEXBacktester)
    (h : Backtester.provide_liquidity st user t0 t1 a0 a1 sq = .ok st') :
    ¬ (Backtester.getBal st user t0 < a0 ∨ Backtester.getBal st user t1 < a1) ∧
    ∃ lp amm' v0 w amt,
      st.amm.add_liquidity t0 t1 a0 a1 sq = .ok (lp, amm') ∧
      alook t0 ((alook user st.user_balances).getD []) = some v0 ∧
      alook t1 (aset t0 (v0 - a0) ((alook user st.user_balances).getD [])) = some w ∧
      ((lp.total_supply = 0 ∧ amt = sq (a0 * a1)) ∨
        (lp.total_supply ≠ 0 ∧ ¬ (lp.reserve0 = 0 ∨ lp.reserve1 = 0) ∧
          amt = min (a0 / lp.reserve0) (a1 / lp.reserve1) * lp.total_supply)) ∧
      st' = ⟨amm',
        aset user (aset t1 (w - a1) (aset t0 (v0 - a0)
          ((alook user st.user_balances).getD []))) st.user_balances,
        aset user (aset lp.pair
          ((alook lp.pair ((alook user st.user_lp_positions).getD [])).getD 0 + amt)
          ((alook user st.user_lp_positions).getD [])) st.user_lp_positions⟩ := by
  simp only [Backtester.provide_liquidity] at h
  by_cases hb : Backtester.getBal st user t0 < a0 ∨ Backtester.getBal st user t1 < a1
  · rw [if_pos hb] at h
    simp at h
  · rw [if_neg hb] at h
    refine ⟨hb, ?_⟩
    rcases hadd : st.amm.add_liquidity t0 t1 a0 a1 sq with e | ⟨lp, amm'⟩
    · simp only [hadd] at h
      simp at h
    · simp only [hadd] at h
      rcases hv0 : alook t0 ((alook user st.user_balances).getD []) with _ | v0
      · simp only [hv0] at h
        simp at h
      · simp only [hv0] at h
        rcases hv1 : alook t1 (aset t0 (v0 - a0) ((alook user st.user_balances).getD []))
          with _ | w
        · simp only [hv1] at h
          simp at h
        · simp only [hv1] at h
          by_cases hz : lp.total_supply = 0
          · rw [if_pos hz] at h
            simp only [Except.ok.injEq] at h
            exact ⟨lp, amm', v0, w, sq (a0 * a1), rfl, rfl, hv1, Or.inl ⟨hz, rfl⟩, h.symm⟩
          · rw [if_neg hz] at h
            by_cases hr : lp.reserve0 = 0 ∨ lp.reserve1 = 0
            · rw [if_pos hr] at h
              simp at h
            · rw [if_neg hr] at h
              simp only [Except.ok.injEq] at h
              exact ⟨lp, amm', v0, w,
                min (a0 / lp.reserve0) (a1 / lp.reserve1) * lp.total_supply,
                rfl, rfl, hv1, Or.inr ⟨hz, hr, rfl⟩, h.symm⟩

theorem Backtester.add_liquidity_ok_cases (amm : Backtester.AMM) (t0 t1 : String)
    (a0 a1 : ℚ) (sq : ℚ → ℚ) (lp : Backtester.LPToken) (amm' : Backtester.AMM)
    (h : amm.add_liquidity t0 t1 a0 a1 sq = .ok (lp, amm')) :
    amm'.fee = amm.fee ∧ amm'.gas_fee = amm.gas_fee ∧
    amm'.pools = aset (Backtester.pairName t0 t1) lp amm.pools ∧
    ((alook (Backtester.pairName t0 t1) amm.pools = none ∧
        lp = ⟨Backtester.pairName t0 t1, "0x" ++ (Backtester.pairName t0 t1).take 8,
          a0, a1, sq (a0 * a1), 0⟩) ∨
      (∃ p, alook (Backtester.pairName t0 t1) amm.pools = some p ∧
        ¬ (p.reserve0 = 0 ∨ p.reserve1 = 0) ∧
        lp = ⟨p.pair, p.address, p.reserve0 + a0, p.reserve1 + a1,
          p.total_supply + min (a0 / p.reserve0) (a1 / p.reserve1) * p.total_supply,
          p.fee_accumulated⟩)) := by
  simp only [Backtester.AMM.add_liquidity] at h
  rcases hp : alook (Backtester.pairName t0 t1) amm.pools with _ | p
  · simp only [hp] at h
    simp only [Except.ok.injEq, Prod.mk.injEq] at h
    obtain ⟨hlp, hamm⟩ := h
    subst hamm
    exact ⟨rfl, rfl, by rw [← hlp], Or.inl ⟨rfl, hlp.symm⟩⟩
  · simp only [hp] at h
    by_cases hr : p.reserve0 = 0 ∨ p.reserve1 = 0
    · rw [if_pos hr] at h
      simp at h
    · rw [if_neg hr] at h
      simp only [Except.ok.injEq, Prod.mk.injEq] at h
      obtain ⟨hlp, hamm⟩ := h
      subst hamm
      exact ⟨rfl, rfl, by rw [← hlp], Or.inr ⟨p, rfl, hr, hlp.symm⟩⟩

theorem Backtester.innerNonneg_aset (inner : List (String × ℚ)) (t : String) (x : ℚ)
    (h : Backtester.InnerNonneg inner) (hx : 0 ≤ x) :
    Backtester.InnerNonneg (aset t x inner) := by
  intro t'
  by_cases ht : t' = t
  · subst ht
    rw [alook_aset_self]
    exact hx
  · rw [alook_aset_ne _ _ _ _ ht]
    exact h t'

theorem Backtester.stepOp_safe (sq : ℚ → ℚ) (st : Backtester.DEXBacktester)
    (op : Backtester.Op)
    (hfee : st.amm.fee = 3/1000) (hgas : st.amm.gas_fee = 1/10000)
    (hbal : Backtester.BalancesNonneg st) (hres : Backtester.ReservesPos st.amm)
    (hop : Backtester.SafeOpOK op = true) :
    (Backtester.stepOp sq st op).amm.fee = 3/1000 ∧
      (Backtester.stepOp sq st op).amm.gas_fee = 1/10000 ∧
      Backtester.BalancesNonneg (Backtester.stepOp sq st op) ∧
      Backtester.ReservesPos (Backtester.stepOp sq st op).amm := by
  cases op with
  | swap user tin tout a =>
    simp only [Backtester.SafeOpOK, decide_eq_true_eq] at hop
    simp only [Backtester.stepOp]
    rcases hss : Backtester.safe_swap st user tin tout a with e | ⟨ret, st'⟩
    · exact ⟨hfee, hgas, hbal, hres⟩
    · obtain ⟨hb, lp, hlp, hz, hret, hst'⟩ :=
        Backtester.swap_ok_cases st user tin tout a ret st' hss
      subst hst'
      obtain ⟨hr0, hr1⟩ := hres _ _ hlp
      have haiwf : 0 < a * (1 - st.amm.fee) := by
        rw [hfee]
        have h997 : (0:ℚ) < 1 - 3/1000 := by norm_num
        exact mul_pos hop h997
      have hden : 0 < lp.reserve0 + a * (1 - st.amm.fee) := by linarith
      have hret' : 0 ≤ ret := by
        rw [hret, hgas]
        have : (0:ℚ) ≤ a * (1 - st.amm.fee) * lp.reserve1 /
            (lp.reserve0 + a * (1 - st.amm.fee)) := by positivity
        have h9999 : (0:ℚ) ≤ 1 - 1/10000 := by norm_num
        exact mul_nonneg this h9999
      have hinner : Backtester.InnerNonneg ((alook user st.user_balances).getD []) :=
        fun t' => hbal user t'
      have hba : 0 ≤ (alook tin ((alook user st.user_balances).getD [])).getD 0 - a := by
        have := not_lt.mp hb
        simp only [Backtester.getBal] at this
        linarith
      have hinner1 := Backtester.innerNonneg_aset _ tin _ hinner hba
      have hY : 0 ≤ (alook tout (aset tin
          ((alook tin ((alook user st.user_balances).getD [])).getD 0 - a)
          ((alook user st.user_balances).getD []))).getD 0 + ret :=
        add_nonneg (hinner1 tout) hret'
      have hinner2 := Backtester.innerNonneg_aset _ tout _ hinner1 hY
      refine ⟨hfee, hgas, ?_, ?_⟩
      · intro u t
        simp only [Backtester.getBal]
        by_cases hu : u = user
        · subst hu
          rw [alook_aset_self]
          exact hinner2 t
        · rw [alook_aset_ne _ _ _ _ hu]
          exact hbal u t
      · intro pn' lp'' hlk
        by_cases hpn : pn' = Backtester.pairName tin tout
        · subst hpn
          rw [alook_aset_self] at hlk
          obtain rfl := (Option.some.injEq _ _).mp hlk
          constructor
          · show 0 < lp.reserve0 + a
            linarith
          · show 0 < lp.reserve1 -
              a * (1 - st.amm.fee) * lp.reserve1 / (lp.reserve0 + a * (1 - st.amm.fee))
            have hkey : lp.reserve1 -
                a * (1 - st.amm.fee) * lp.reserve1 / (lp.reserve0 + a * (1 - st.amm.fee))
                = lp.reserve0 * lp.reserve1 / (lp.reserve0 + a * (1 - st.amm.fee)) := by
              field_simp
              ring
            rw [hkey]
            positivity
        · rw [alook_aset_ne _ _ _ _ hpn] at hlk
          exact hres _ _ hlk
  | provide user t0 t1 a0 a1 =>
    simp only [Backtester.SafeOpOK, Bool.and_eq_true, decide_eq_true_eq] at hop
    obtain ⟨⟨ha0, ha1⟩, h01⟩ := hop
    simp only [Backtester.stepOp]
    rcases hpv : Backtester.provide_liquidity st user t0 t1 a0 a1 sq with e | st'
    · exact ⟨hfee, hgas, hbal, hres⟩
    · obtain ⟨hb, lp, amm', v0, w, amt, hadd, hv0, hv1, hbr, hst'⟩ :=
        Backtester.provide_ok_cases st user t0 t1 a0 a1 sq st' hpv
      subst hst'
      obtain ⟨hfee', hgas', hpools, hcases⟩ :=
        Backtester.add_liquidity_ok_cases _ _ _ _ _ _ _ _ hadd
      rw [not_or, not_lt, not_lt] at hb
      obtain ⟨hb0, hb1⟩ := hb
      have hgv0 : Backtester.getBal st user t0 = v0 := by
        simp [Backtester.getBal, hv0]
      have hw : alook t1 ((alook user st.user_balances).getD []) = some w := by
        rw [← hv1, alook_aset_ne _ _ _ _ (Ne.symm h01)]
      have hgw : Backtester.getBal st user t1 = w := by
        simp [Backtester.getBal, hw]
      have hinner : Backtester.InnerNonneg ((alook user st.user_balances).getD []) :=
        fun t' => hbal user t'
      have hinner1 := Backtester.innerNonneg_aset _ t0 (v0 - a0) hinner
        (by rw [← hgv0]; linarith)
      have hinner2 := Backtester.innerNonneg_aset _ t1 (w - a1) hinner1
        (by rw [← hgw]; linarith)
      refine ⟨?_, ?_, ?_, ?_⟩
      · show amm'.fee = 3/1000
        rw [hfee']
        exact hfee
      · show amm'.gas_fee = 1/10000
        rw [hgas']
        exact hgas
      · intro u t
        simp only [Backtester.getBal]
        by_cases hu : u = user
        · subst hu
          rw [alook_aset_self]
          exact hinner2 t
        · rw [alook_aset_ne _ _ _ _ hu]
          exact hbal u t
      · intro pn' lp'' hlk
        show 0 < lp''.reserve0 ∧ 0 < lp''.reserve1
        rw [hpools] at hlk
        by_cases hpn : pn' = Backtester.pairName t0 t1
        · subst hpn
          rw [alook_aset_self] at hlk
          obtain rfl := (Option.some.injEq _ _).mp hlk
          rcases hcases with ⟨-, hlpeq⟩ | ⟨p, hp, -, hlpeq⟩
          · subst hlpeq
            exact ⟨ha0, ha1⟩
          · subst hlpeq
            obtain ⟨hp0, hp1⟩ := hres _ _ hp
            constructor
            · show 0 < p.reserve0 + a0
              linarith
            · show 0 < p.reserve1 + a1
              linarith
        · rw [alook_aset_ne _ _ _ _ hpn] at hlk
          exact hres _ _ hlk

theorem Backtester.runOps_safe (sq : ℚ → ℚ) (ops : List Backtester.Op) :
    ∀ st : Backtester.DEXBacktester,
      st.amm.fee = 3/1000 → st.amm.gas_fee = 1/10000 →
      Backtester.BalancesNonneg st → Backtester.ReservesPos st.amm →
      (∀ op ∈ ops, Backtester.SafeOpOK op = true) →
      (Backtester.runOps sq st ops).amm.fee = 3/1000 ∧
        (Backtester.runOps sq st ops).amm.gas_fee = 1/10000 ∧
        Backtester.BalancesNonneg (Backtester.runOps sq st ops) ∧
        Backtester.ReservesPos (Backtester.runOps sq st ops).amm := by
  induction ops with
  | nil => exact fun st h1 h2 h3 h4 _ => ⟨h1, h2, h3, h4⟩
  | cons op rest ih =>
    intro st h1 h2 h3 h4 hops
    obtain ⟨s1, s2, s3, s4⟩ :=
      Backtester.stepOp_safe sq st op h1 h2 h3 h4 (hops op (List.mem_cons_self _ _))
    exact ih _ s1 s2 s3 s4 (fun o ho => hops o (List.mem_cons_of_mem _ ho))

/-- C8 amended: starting from a fresh `DEXBacktester()` funded with any
non-negative balances, every state reached through the public operations
keeps every account token balance and every pool reserve non-negative —
provided each operation uses positive amounts and each liquidity deposit
names two distinct tokens (without those restrictions the claim fails, see
the counterexample). -/
theorem Backtester.no_negative_states (sq : ℚ → ℚ)
    (bal0 : List (String × List (String × ℚ))) (ops : List Backtester.Op)
    (h0 : Backtester.balsNonneg bal0 = true)
    (hops : ∀ op ∈ ops, Backtester.SafeOpOK op = true) :
    Backtester.BalancesNonneg (Backtester.runOps sq (Backtester.initDEX bal0) ops) ∧
      ∀ pn lp,
        alook pn (Backtester.runOps sq (Backtester.initDEX bal0) ops).amm.pools = some lp →
        0 ≤ lp.reserve0 ∧ 0 ≤ lp.reserve1 := by
  have hb0 : Backtester.BalancesNonneg (Backtester.initDEX bal0) := by
    intro u t
    simp only [Backtester.balsNonneg, List.all_eq_true, decide_eq_true_eq] at h0
    simp only [Backtester.getBal, Backtester.initDEX]
    rcases hu : alook u bal0 with _ | inner
    · simp [alook]
    · simp only [Option.getD_some]
      rcases ht : alook t inner with _ | v
      · simp
      · simp only [Option.getD_some]
        exact h0 (u, inner) (alook_mem _ _ _ hu) (t, v) (alook_mem _ _ _ ht)
  have hres0 : Backtester.ReservesPos (Backtester.initDEX bal0).amm := by
    intro pn lp h
    simp [Backtester.initDEX, alook] at h
  obtain ⟨-, -, h3, h4⟩ :=
    Backtester.runOps_safe sq ops (Backtester.initDEX bal0) rfl rfl hb0 hres0 hops
  exact ⟨h3, fun pn lp h => ⟨(h4 pn lp h).1.le, (h4 pn lp h).2.le⟩⟩

/-- C8 counterexample: from the non-negative funding table giving alice one
unit of token `A`, the single public call
`provide_liquidity("alice", "A", "A", 1, 1)` passes both balance checks
against the same entry, debits it twice, and leaves alice's `A` balance at
`-1 < 0` — a reachable negative balance. -/
theorem Backtester.negative_balance_counterexample :
    Backtester.balsNonneg Backtester.c8bal = true ∧
      Backtester.getBal
        (Backtester.runOps modelSqrt (Backtester.initDEX Backtester.c8bal)
          [.provide "alice" "A" "A" 1 1]) "alice" "A" = -1 ∧
      ¬ ((0 : ℚ) ≤ -1) := by
  have hms : modelSqrt 1 = 1 := by
    rw [modelSqrt]
    have h1 : (1:ℚ).num.toNat = 1 := by norm_num
    have h2 : (1:ℚ).den = 1 := by norm_num
    rw [h1, h2]
    have h4 : natSqrtBelow 1 1 = 1 := by simp [natSqrtBelow]
    rw [h4]
    norm_num
  refine ⟨?_, ?_, by norm_num⟩
  · simp [Backtester.balsNonneg, Backtester.c8bal]
  · norm_num [Backtester.runOps, Backtester.stepOp, Backtester.provide_liquidity,
      Backtester.AMM.add_liquidity, Backtester.getBal, Backtester.initDEX,
      Backtester.c8bal, alook, aset, hms]

theorem Backtester.no_negative_states_witness :
    Backtester.balsNonneg Backtester.c8balW = true ∧
      0 ≤ Backtester.getBal
        (Backtester.runOps modelSqrt (Backtester.initDEX Backtester.c8balW)
          [.provide "alice" "A" "B" 2 3, .swap "alice" "A" "B" 1]) "alice" "A" :=
  ⟨by simp [Backtester.balsNonneg, Backtester.c8balW],
    (Backtester.no_negative_states modelSqrt Backtester.c8balW
      [.provide "alice" "A" "B" 2 3, .swap "alice" "A" "B" 1]
      (by simp [Backtester.balsNonneg, Backtester.c8balW])
      (by
        intro op hop
        simp only [List.mem_cons, List.mem_singleton] at hop
        rcases hop with rfl | rfl | h
        · norm_num [Backtester.SafeOpOK, (by decide : ("A" : String) ≠ "B")]
        · norm_num [Backtester.SafeOpOK]
        · exact absurd h (List.not_mem_nil _))).1 "alice" "A"⟩

theorem Backtester.sumShares_aset (positions : List (String × List (String × ℚ)))
    (u : String) (inner' : List (String × ℚ)) (pn : String) :
    Backtester.sumShares (aset u inner' positions) pn =
      Backtester.sumShares positions pn
        - Backtester.contribOf ((alook u positions).getD []) pn
        + Backtester.contribOf inner' pn := by
  induction positions with
  | nil => simp [Backtester.sumShares, aset, Backtester.contribOf, alook]
  | cons hd tl ih =>
    rcases hd with ⟨k, w⟩
    by_cases hk : k = u
    · subst hk
      simp [Backtester.sumShares, aset, alook]
      ring
    · simp only [aset, if_neg hk, Backtester.sumShares, List.map_cons, List.sum_cons,
        alook, if_neg hk] at ih ⊢
      rw [ih]
      ring

theorem Backtester.mint_share_key (a0 a1 r0 r1 S : ℚ)
    (ha0 : 0 < a0) (ha1 : 0 < a1) (hr0 : 0 < r0) (hr1 : 0 < r1) (hS : 0 < S) :
    min (a0 / (r0 + a0)) (a1 / (r1 + a1)) * (S + min (a0 / r0) (a1 / r1) * S)
      = min (a0 / r0) (a1 / r1) * S := by
  have hr0a : 0 < r0 + a0 := by linarith
  have hr1a : 0 < r1 + a1 := by linarith
  rcases le_total (a0 / r0) (a1 / r1) with h | h
  · have h2 : a0 * r1 ≤ a1 * r0 := (div_le_div_iff₀ hr0 hr1).mp h
    have h' : a0 / (r0 + a0) ≤ a1 / (r1 + a1) := by
      rw [div_le_div_iff₀ hr0a hr1a]
      nlinarith
    rw [min_eq_left h, min_eq_left h']
    field_simp
    ring
  · have h2 : a1 * r0 ≤ a0 * r1 := (div_le_div_iff₀ hr1 hr0).mp h
    have h' : a1 / (r1 + a1) ≤ a0 / (r0 + a0) := by
      rw [div_le_div_iff₀ hr1a hr0a]
      nlinarith
    rw [min_eq_right h, min_eq_right h']
    field_simp
    ring

theorem natSqrtBelow_pos (n : Nat) (hn : 1 ≤ n) :
    ∀ m, 1 ≤ m → 1 ≤ natSqrtBelow m n := by
  intro m
  induction m using Nat.strong_induction_on with
  | _ m ih =>
    intro hm
    rw [natSqrtBelow]
    rw [if_neg (by omega)]
    by_cases hc : m * m ≤ n
    · rw [if_pos hc]
      exact hm
    · rw [if_neg hc]
      have hm2 : 2 ≤ m := by
        rcases Nat.lt_or_ge m 2 with h2 | h2
        · exfalso
          have hm1 : m = 1 := by omega
          subst hm1
          exact hc (by omega)
        · exact h2
      exact ih (m - 1) (by omega) (by omega)

theorem modelSqrt_pos (x : ℚ) (hx : 0 < x) : 0 < modelSqrt x := by
  rw [modelSqrt]
  have hnum : 1 ≤ x.num.toNat := by
    have := Rat.num_pos.mpr hx
    omega
  have hden : 1 ≤ x.den := x.den_pos
  have h1 := natSqrtBelow_pos _ hnum _ hnum
  have h2 := natSqrtBelow_pos _ hden _ hden
  have c1 : (0:ℚ) < (natSqrtBelow x.num.toNat x.num.toNat : ℚ) := by
    exact_mod_cast Nat.lt_of_lt_of_le Nat.zero_lt_one h1
  have c2 : (0:ℚ) < (natSqrtBelow x.den x.den : ℚ) := by
    exact_mod_cast Nat.lt_of_lt_of_le Nat.zero_lt_one h2
  exact div_pos c1 c2

theorem Backtester.stepOp_conserve (sq : ℚ → ℚ) (st : Backtester.DEXBacktester)
    (op : Backtester.Op)
    (hsq : ∀ x, 0 < x → 0 < sq x)
    (hwf : Backtester.PoolsWF st.amm)
    (hcons : ∀ pn, Backtester.sumShares st.user_lp_positions pn =
      Backtester.supplyOf st.amm pn)
    (hop : Backtester.MintOpOK op = true) :
    Backtester.PoolsWF (Backtester.stepOp sq st op).amm ∧
      ∀ pn, Backtester.sumShares (Backtester.stepOp sq st op).user_lp_positions pn =
        Backtester.supplyOf (Backtester.stepOp sq st op).amm pn := by
  cases op with
  | swap user tin tout a => simp [Backtester.MintOpOK] at hop
  | provide user t0 t1 a0 a1 =>
    simp only [Backtester.MintOpOK, Bool.and_eq_true, decide_eq_true_eq] at hop
    obtain ⟨ha0, ha1⟩ := hop
    simp only [Backtester.stepOp]
    rcases hpv : Backtester.provide_liquidity st user t0 t1 a0 a1 sq with e | st'
    · exact ⟨hwf, hcons⟩
    · obtain ⟨hb, lp, amm', v0, w, amt, hadd, hv0, hv1, hbr, hst'⟩ :=
        Backtester.provide_ok_cases st user t0 t1 a0 a1 sq st' hpv
      subst hst'
      obtain ⟨hfee', hgas', hpools, hcases⟩ :=
        Backtester.add_liquidity_ok_cases _ _ _ _ _ _ _ _ hadd
      rcases hcases with ⟨hnone, hlpeq⟩ | ⟨p, hp, hrz2, hlpeq⟩
      · -- first deposit for this ordered pair: a fresh pool is created
        subst hlpeq
        have hSpos : 0 < sq (a0 * a1) := hsq _ (mul_pos ha0 ha1)
        have hamt : amt = sq (a0 * a1) := by
          rcases hbr with ⟨hz, -⟩ | ⟨-, -, hamt⟩
          · exact absurd hz hSpos.ne'
          · rw [hamt, div_self ha0.ne', div_self ha1.ne', min_self, one_mul]
        constructor
        · intro pn' lp'' hlk
          show lp''.pair = pn' ∧ 0 < lp''.reserve0 ∧ 0 < lp''.reserve1 ∧
            0 < lp''.total_supply
          rw [hpools] at hlk
          by_cases hpn : pn' = Backtester.pairName t0 t1
          · subst hpn
            obtain rfl := (Option.some.injEq _ _).mp ((alook_aset_self _ _ _) ▸ hlk)
            exact ⟨rfl, ha0, ha1, hSpos⟩
          · rw [alook_aset_ne _ _ _ _ hpn] at hlk
            exact hwf _ _ hlk
        · intro pn'
          show Backtester.sumShares (aset user _ st.user_lp_positions) pn' = _
          rw [Backtester.sumShares_aset]
          by_cases hpn : pn' = Backtester.pairName t0 t1
          · subst hpn
            have hsup : Backtester.supplyOf st.amm (Backtester.pairName t0 t1) = 0 := by
              simp [Backtester.supplyOf, hnone]
            rw [hcons (Backtester.pairName t0 t1), hsup]
            have hsup2 : Backtester.supplyOf amm' (Backtester.pairName t0 t1) =
                sq (a0 * a1) := by
              simp only [Backtester.supplyOf, hpools, alook_aset_self]
              simp [Option.map]
            rw [hsup2]
            simp only [Backtester.contribOf, alook_aset_self, Option.getD_some]
            rw [hamt]
            ring
          · have hsup2 : Backtester.supplyOf amm' pn' = Backtester.supplyOf st.amm pn' := by
              simp only [Backtester.supplyOf, hpools]
              rw [alook_aset_ne _ _ _ _ hpn]
            rw [hsup2, ← hcons pn']
            simp only [Backtester.contribOf]
            rw [alook_aset_ne _ _ _ _ hpn]
            ring
      · -- subsequent deposit into the existing pool
        obtain ⟨hppair, hp0, hp1, hpS⟩ := hwf _ _ hp
        subst hlpeq
        have hm : 0 < min (a0 / p.reserve0) (a1 / p.reserve1) * p.total_supply :=
          mul_pos (lt_min (by positivity) (by positivity)) hpS
        have hamt : amt = min (a0 / p.reserve0) (a1 / p.reserve1) * p.total_supply := by
          rcases hbr with ⟨hz, -⟩ | ⟨-, -, hamt⟩
          · exfalso
            have hpos : (0:ℚ) < p.total_supply +
                min (a0 / p.reserve0) (a1 / p.reserve1) * p.total_supply := by linarith
            exact hpos.ne' hz
          · rw [hamt]
            exact Backtester.mint_share_key a0 a1 p.reserve0 p.reserve1 p.total_supply
              ha0 ha1 hp0 hp1 hpS
        constructor
        · intro pn' lp'' hlk
          show lp''.pair = pn' ∧ 0 < lp''.reserve0 ∧ 0 < lp''.reserve1 ∧
            0 < lp''.total_supply
          rw [hpools] at hlk
          by_cases hpn : pn' = Backtester.pairName t0 t1
          · subst hpn
            obtain rfl := (Option.some.injEq _ _).mp ((alook_aset_self _ _ _) ▸ hlk)
            refine ⟨hppair, by linarith, by linarith, by linarith⟩
          · rw [alook_aset_ne _ _ _ _ hpn] at hlk
            exact hwf _ _ hlk
        · intro pn'
          show Backtester.sumShares (aset user _ st.user_lp_positions) pn' = _
          rw [Backtester.sumShares_aset]
          by_cases hpn : pn' = Backtester.pairName t0 t1
          · subst hpn
            have hsup : Backtester.supplyOf st.amm (Backtester.pairName t0 t1) =
                p.total_supply := by
              simp [Backtester.supplyOf, hp]
            rw [hcons (Backtester.pairName t0 t1), hsup]
            have hsup2 : Backtester.supplyOf amm' (Backtester.pairName t0 t1) =
                p.total_supply + min (a0 / p.reserve0) (a1 / p.reserve1) * p.total_supply := by
              simp only [Backtester.supplyOf, hpools, alook_aset_self]
              simp [Option.map]
            rw [hsup2]
            simp only [Backtester.contribOf, hppair, alook_aset_self, Option.getD_some]
            rw [hamt]
            ring
          · have hsup2 : Backtester.supplyOf amm' pn' = Backtester.supplyOf st.amm pn' := by
              simp only [Backtester.supplyOf, hpools]
              rw [alook_aset_ne _ _ _ _ hpn]
            rw [hsup2, ← hcons pn']
            simp only [Backtester.contribOf, hppair]
            rw [alook_aset_ne _ _ _ _ hpn]
            ring

theorem Backtester.runOps_conserve (sq : ℚ → ℚ) (hsq : ∀ x, 0 < x → 0 < sq x)
    (ops : List Backtester.Op) :
    ∀ st : Backtester.DEXBacktester,
      Backtester.PoolsWF st.amm →
      (∀ pn, Backtester.sumShares st.user_lp_positions pn =
        Backtester.supplyOf st.amm pn) →
      (∀ op ∈ ops, Backtester.MintOpOK op = true) →
      Backtester.PoolsWF (Backtester.runOps sq st ops).amm ∧
        ∀ pn, Backtester.sumShares (Backtester.runOps sq st ops).user_lp_positions pn =
          Backtester.supplyOf (Backtester.runOps sq st ops).amm pn := by
  induction ops with
  | nil => exact fun st h1 h2 _ => ⟨h1, h2⟩
  | cons op rest ih =>
    intro st h1 h2 hops
    obtain ⟨s1, s2⟩ :=
      Backtester.stepOp_conserve sq st op hsq h1 h2 (hops op (List.mem_cons_self _ _))
    exact ih _ s1 s2 (fun o ho => hops o (List.mem_cons_of_mem _ ho))

/-- C2 amended: share conservation holds for mints with positive amounts.
Starting from a fresh `DEXBacktester()` funded with any balances, after any
sequence of `provide_liquidity` calls with positive amounts (and a square
root that is positive on positive inputs, as `math.sqrt` is in exact
arithmetic), for every pair key the sum over all accounts of the recorded
LP-share balances equals that pool's total LP supply.  For non-positive
amounts the property fails on the code — see the counterexample. -/
theorem Backtester.share_conservation (sq : ℚ → ℚ)
    (hsq : ∀ x, 0 < x → 0 < sq x)
    (bal0 : List (String × List (String × ℚ))) (ops : List Backtester.Op)
    (hops : ∀ op ∈ ops, Backtester.MintOpOK op = true) :
    ∀ pn, Backtester.sumShares
        (Backtester.runOps sq (Backtester.initDEX bal0) ops).user_lp_positions pn =
      Backtester.supplyOf (Backtester.runOps sq (Backtester.initDEX bal0) ops).amm pn := by
  have h1 : Backtester.PoolsWF (Backtester.initDEX bal0).amm := by
    intro pn lp h
    simp [Backtester.initDEX, alook] at h
  have h2 : ∀ pn, Backtester.sumShares (Backtester.initDEX bal0).user_lp_positions pn =
      Backtester.supplyOf (Backtester.initDEX bal0).amm pn := by
    intro pn
    simp [Backtester.initDEX, Backtester.sumShares, Backtester.supplyOf, alook]
  exact (Backtester.runOps_conserve sq hsq ops (Backtester.initDEX bal0) h1 h2 hops).2

theorem Backtester.share_conservation_witness :
    (0 : ℚ) < 4 ∧
      Backtester.sumShares
          (Backtester.runOps modelSqrt (Backtester.initDEX Backtester.c2bal)
            Backtester.c2ops).user_lp_positions (Backtester.pairName "USDC" "ETH") =
        Backtester.supplyOf
          (Backtester.runOps modelSqrt (Backtester.initDEX Backtester.c2bal)
            Backtester.c2ops).amm (Backtester.pairName "USDC" "ETH") :=
  ⟨by norm_num,
    Backtester.share_conservation modelSqrt modelSqrt_pos Backtester.c2bal
      Backtester.c2ops
      (by
        intro op hop
        simp only [Backtester.c2ops, List.mem_cons, List.mem_singleton] at hop
        rcases hop with rfl | rfl | h
        · norm_num [Backtester.MintOpOK]
        · norm_num [Backtester.MintOpOK]
        · exact absurd h (List.not_mem_nil _))
      (Backtester.pairName "USDC" "ETH")⟩

/-- C2 counterexample: share conservation fails for a `provide_liquidity`
call with negative amounts, which the `<` balance checks let through.
After seeding the `"A-B"` pool with `(1, 1)` (supply 1, alice holding the
1 minted share), `provide_liquidity("alice", "A", "B", -1/2, -3/2)` passes
both checks (`0 < -1/2` and `0 < -3/2` are false), completes, and leaves
the pool's total supply at `1 + min(-1/2, -3/2)·1 = -1/2` while crediting
alice `min(-1, 3)·(-1/2) = 1/2` more shares: the per-account sum is `3/2`,
the supply `-1/2`. -/
theorem Backtester.share_conservation_counterexample :
    Backtester.sumShares
        (Backtester.runOps modelSqrt (Backtester.initDEX Backtester.c2badBal)
          Backtester.c2badOps).user_lp_positions (Backtester.pairName "A" "B") = 3/2 ∧
      Backtester.supplyOf
        (Backtester.runOps modelSqrt (Backtester.initDEX Backtester.c2badBal)
          Backtester.c2badOps).amm (Backtester.pairName "A" "B") = -1/2 ∧
      (3/2 : ℚ) ≠ -1/2 := by
  have hms : modelSqrt 1 = 1 := by
    rw [modelSqrt]
    have h1 : (1:ℚ).num.toNat = 1 := by norm_num
    have h2 : (1:ℚ).den = 1 := by norm_num
    rw [h1, h2]
    have h4 : natSqrtBelow 1 1 = 1 := by simp [natSqrtBelow]
    rw [h4]
    norm_num
  refine ⟨?_, ?_, by norm_num⟩
  · norm_num [Backtester.runOps, Backtester.stepOp, Backtester.provide_liquidity,
      Backtester.AMM.add_liquidity, Backtester.getBal, Backtester.initDEX,
      Backtester.sumShares, Backtester.contribOf, Backtester.c2badBal,
      Backtester.c2badOps, alook, aset, min_def, hms,
      (by decide : ("A" : String) ≠ "B"), (by decide : ("B" : String) ≠ "A")]
  · norm_num [Backtester.runOps, Backtester.stepOp, Backtester.provide_liquidity,
      Backtester.AMM.add_liquidity, Backtester.getBal, Backtester.initDEX,
      Backtester.supplyOf, Backtester.c2badBal,
      Backtester.c2badOps, alook, aset, min_def, hms,
      (by decide : ("A" : String) ≠ "B"), (by decide : ("B" : String) ≠ "A")]
